import Mathlib

/-!
Verification development for the LexiGuard contract-analysis pipeline
(`lexiguard_core.py`).  Python strings are modelled as `List Char`
(`PyStr`), so every operation counts code points exactly as Python does.
The regular expressions of the source are translated to executable
character-list matchers; each pattern's character classes are disjoint from
`\s`, so greedy matching without backtracking is exact.  Python's `\d` is
modelled on the digit ranges that occur in this domain (ASCII and fullwidth
digits); the full Unicode `Nd` table is not reproduced.
-/

set_option maxRecDepth 10000

abbrev PyStr := List Char

/-- Python whitespace (`str.strip`, `str.isspace`, and `\s` for `str`
patterns): ASCII whitespace, the C1 controls `\x1c`–`\x1f` and `\x85`, and
the Unicode space separators. -/
def isPySpace (c : Char) : Bool :=
  let n := c.toNat
  n = 0x20 || (0x09 ≤ n && n ≤ 0x0d) || (0x1c ≤ n && n ≤ 0x1f) || n = 0x85 ||
  n = 0xa0 || n = 0x1680 || (0x2000 ≤ n && n ≤ 0x200a) || n = 0x2028 ||
  n = 0x2029 || n = 0x202f || n = 0x205f || n = 0x3000

/-- The line boundaries recognized by Python `str.splitlines` (besides the
two-character sequence `\r\n`, handled separately). -/
def isLineSep (c : Char) : Bool :=
  let n := c.toNat
  n = 0x0a || n = 0x0b || n = 0x0c || n = 0x0d || n = 0x1c || n = 0x1d ||
  n = 0x1e || n = 0x85 || n = 0x2028 || n = 0x2029

/-- The CJK numerals of the character class `[一二三四五六七八九十]`. -/
def isCJKNum (c : Char) : Bool :=
  c = '一' || c = '二' || c = '三' || c = '四' || c = '五' ||
  c = '六' || c = '七' || c = '八' || c = '九' || c = '十'

def isAsciiDigit (c : Char) : Bool := '0' ≤ c && c ≤ '9'

/-- The character class `[一二三四五六七八九十0-9]`. -/
def isArtNum (c : Char) : Bool := isCJKNum c || isAsciiDigit c

/-- Python `\d` (decimal digits), restricted to the ranges relevant here. -/
def isPyDigit (c : Char) : Bool := isAsciiDigit c || ('０' ≤ c && c ≤ '９')

/-- The CJK ideograph range `[一-鿿]`. -/
def isHan (c : Char) : Bool := 0x4e00 ≤ c.toNat && c.toNat ≤ 0x9fff

def trimLeft (l : PyStr) : PyStr := l.dropWhile isPySpace

def trimRight (l : PyStr) : PyStr := (trimLeft l.reverse).reverse

/-- Python `str.strip()`. -/
def pyStrip (l : PyStr) : PyStr := trimRight (trimLeft l)

/-- Python `str.startswith`. -/
def pyStartsWith : PyStr → PyStr → Bool
  | _, [] => true
  | [], _ :: _ => false
  | c :: s, p :: ps => c = p && pyStartsWith s ps

/-- Python `str.endswith`. -/
def pyEndsWith (s p : PyStr) : Bool := pyStartsWith s.reverse p.reverse

/-- Python `str.split('\n')` (also where `re.M` places `^` anchors). -/
def splitNL : PyStr → List PyStr
  | [] => [[]]
  | c :: t =>
    if c = '\n' then [] :: splitNL t
    else (splitNL t).modifyHead (fun h => c :: h)

/-- Python `'\n'.join`. -/
def joinNL : List PyStr → PyStr
  | [] => []
  | [x] => x
  | x :: y :: t => x ++ '\n' :: joinNL (y :: t)

/-- `re.sub(r'\r\n', '\n', text)`. -/
def normalizeCRLF : PyStr → PyStr
  | '\r' :: '\n' :: t => '\n' :: normalizeCRLF t
  | c :: t => c :: normalizeCRLF t
  | [] => []

def slGo : PyStr → PyStr → List PyStr
  | [], acc => if acc.isEmpty then [] else [acc.reverse]
  | '\r' :: '\n' :: t, acc => acc.reverse :: slGo t []
  | c :: t, acc => if isLineSep c then acc.reverse :: slGo t [] else slGo t (c :: acc)

/-- Python `str.splitlines()`. -/
def pySplitlines (s : PyStr) : List PyStr := slGo s []

/-- `len(re.findall(r"[一-鿿]", s))`. -/
def hanCount (s : PyStr) : ℕ := (s.filter isHan).length

/-- The part of the Article pattern after `第`: `\s*[一二三四五六七八九十0-9]+\s*條`. -/
def articleAfterDi (t : PyStr) : Bool :=
  let t1 := t.dropWhile isPySpace
  let ns := t1.takeWhile isArtNum
  let t2 := (t1.dropWhile isArtNum).dropWhile isPySpace
  !ns.isEmpty && (match t2 with | c :: _ => c = '條' | [] => false)

/-- The Article pattern `第\s*[一二三四五六七八九十0-9]+\s*條` anchored at
the start of the text. -/
def articleAnchor : PyStr → Bool
  | c :: t => c = '第' && articleAfterDi t
  | [] => false

/-- `re.search(r'第\s*[一二三四五六七八九十0-9]+\s*條', text)`: the Article
pattern anywhere in the text. -/
def articleSearch : PyStr → Bool
  | [] => false
  | c :: t => articleAnchor (c :: t) || articleSearch t

/-- The CJK-enumeration pattern `[一二三四五六七八九十]+\s*[、．.]` anchored
at the start of a line. -/
def enumAnchor (l : PyStr) : Bool :=
  let ns := l.takeWhile isCJKNum
  let r := (l.dropWhile isCJKNum).dropWhile isPySpace
  !ns.isEmpty && (match r with | c :: _ => c = '、' || c = '．' || c = '.' | [] => false)

/-- `re.search(r'^[一二三四五六七八九十]+\s*[、．.]', text, re.M)`: the
CJK-enumeration pattern at the start of some line. -/
def enumLinesSearch (t : PyStr) : Bool := (splitNL t).any enumAnchor

/-- `detect_style`: `(has_article, has_chinese_num)`. -/
def detect_style (t : PyStr) : Bool × Bool := (articleSearch t, enumLinesSearch t)

/-- `re.match(r'^#{0,6}\s*第\s*[一二三四五六七八九十0-9]+\s*條', s)`. -/
def hashedArticle (s : PyStr) : Bool :=
  let hs := s.takeWhile (fun c => c = '#')
  let r := (s.dropWhile (fun c => c = '#')).dropWhile isPySpace
  decide (hs.length ≤ 6) && articleAnchor r

/-- `re.match(r'^\d+\s*[\.．]', s)`. -/
def digitDotAnchor (s : PyStr) : Bool :=
  let ds := s.takeWhile isPyDigit
  let r := (s.dropWhile isPyDigit).dropWhile isPySpace
  !ds.isEmpty && (match r with | c :: _ => c = '.' || c = '．' | [] => false)

/-- `re.match(r'^[（(]?\s*[一二三四五六七八九十0-9]+\s*[)）]', s)`. -/
def parenNumAnchor (s : PyStr) : Bool :=
  let s1 := match s with | c :: t => if c = '（' || c = '(' then t else s | [] => s
  let s2 := s1.dropWhile isPySpace
  let ns := s2.takeWhile isArtNum
  let r := (s2.dropWhile isArtNum).dropWhile isPySpace
  !ns.isEmpty && (match r with | c :: _ => c = ')' || c = '）' | [] => false)

/-- `is_clause_start(line, has_article, has_chinese_num)`. -/
def is_clause_start (line : PyStr) (ha hc : Bool) : Bool :=
  let s := pyStrip line
  if s.isEmpty then false
  else if ha && hashedArticle s then true
  else if hc && enumAnchor s then true
  else if !ha && !hc && (digitDotAnchor s || parenNumAnchor s) then true
  else false

/-- The non-blank stripped line list computed inside `is_trivial_clause`. -/
def nonblankLines (s : PyStr) : List PyStr :=
  ((pySplitlines s).map pyStrip).filter (fun ln => !ln.isEmpty)

/-- `is_trivial_clause(text)`. -/
def is_trivial_clause (text : PyStr) : Bool :=
  let s := pyStrip text
  if s.isEmpty then true
  else if s = "---".data then true
  else
    let lines := nonblankLines s
    match lines with
    | [] => true
    | first :: _ =>
      if pyStartsWith first ("###".data) && decide (lines.length = 1) then true
      else if pyStartsWith first ("**".data) && pyEndsWith first ("**".data) &&
              decide (lines.length = 1) then true
      else if decide (hanCount s < 4) && decide (s.length < 20) then true
      else false

/-- The accumulation loop of `segment_clauses`: flush the buffer on a
boundary line when the buffer is non-empty, and flush the final buffer at
the end. -/
def segAccum (ha hc : Bool) : List PyStr → List PyStr → List PyStr → List PyStr
  | [], buf, acc =>
    let last := pyStrip (joinNL buf)
    if last.isEmpty then acc else acc ++ [last]
  | l :: ls, buf, acc =>
    if is_clause_start l ha hc && !buf.isEmpty then
      let ct := pyStrip (joinNL buf)
      segAccum ha hc ls [l] (if ct.isEmpty then acc else acc ++ [ct])
    else segAccum ha hc ls (buf ++ [l]) acc

/-- The clause list accumulated by `segment_clauses` before header stripping
and trivial filtering. -/
def rawClauses (t : PyStr) : List PyStr :=
  let n := normalizeCRLF t
  let st := detect_style n
  segAccum st.1 st.2 (splitNL n) [] []

/-- The header condition of `segment_clauses`: the first clause contains no
Article marker and no line-start CJK-enumeration marker. -/
def headerUnmarked (c : PyStr) : Bool := !articleSearch c && !enumLinesSearch c

/-- The header-stripping step: with at least two clauses, drop an unmarked
first clause. -/
def headerStrip (cs : List PyStr) : List PyStr :=
  match cs with
  | c0 :: c1 :: rest => if headerUnmarked c0 then c1 :: rest else c0 :: c1 :: rest
  | _ => cs

/-- `segment_clauses(text)`. -/
def segment_clauses (t : PyStr) : List PyStr :=
  (headerStrip (rawClauses t)).filter (fun c => !is_trivial_clause c)

/-- The fixed risk-level spelling table of `normalize_risk_level`. -/
def mappingPairs : List (PyStr × PyStr) :=
  [("low".data, "低".data), ("Low".data, "低".data), ("LOW".data, "低".data),
   ("medium".data, "中".data), ("Medium".data, "中".data), ("MEDIUM".data, "中".data),
   ("high".data, "高".data), ("High".data, "高".data), ("HIGH".data, "高".data),
   ("低".data, "低".data), ("中".data, "中".data), ("高".data, "高".data)]

/-- Python `dict` lookup on a key-ordered association list. -/
def pyGet : List (PyStr × PyStr) → PyStr → Option PyStr
  | [], _ => none
  | (k, v) :: t, key => if k = key then some v else pyGet t key

/-- `normalize_risk_level(lv)`; `none` is Python `None`. -/
def normalize_risk_level : Option PyStr → PyStr
  | none => "未知".data
  | some lv =>
    let s := pyStrip lv
    match pyGet mappingPairs s with
    | some v => v
    | none => if s.isEmpty then "未知".data else s

/-- A Python exception raised by the collaborator call
(`requests.post` / `raise_for_status` / response-body errors inside
`LLMClient._generate`). -/
structure PyErr where
  msg : PyStr
deriving DecidableEq

abbrev PyDict := List (PyStr × PyStr)

/-- The result of a successful `json.loads`: either a JSON object with
string fields (in insertion order; non-string field values are outside the
model), or a valid JSON value that is not an object (a list, string,
number, boolean or null), recorded with the name of its Python type. -/
inductive JsonVal where
  | obj (fields : PyDict)
  | nonObj (typeName : PyStr)
deriving DecidableEq

/-- `json.loads`, modelled as an oracle: `none` is `json.JSONDecodeError`,
`some v` a successfully parsed JSON value. -/
abbrev JsonParse := PyStr → Option JsonVal

/-- The `AttributeError` raised by `parsed.setdefault(...)` when
`json.loads` returned a value of a non-dict type; `analyze_clause` catches
only `json.JSONDecodeError`, so this exception propagates. -/
def attributeError (typeName : PyStr) : PyErr :=
  ⟨typeName ++ " object has no attribute setdefault".data⟩

/-- `LLMClient._generate`, modelled as an oracle: `Except.ok` is the
stripped response text, `Except.error` a raised exception (network error,
timeout, non-2xx status, or a malformed response body). -/
abbrev GenOracle := PyStr → Except PyErr PyStr

/-- Python `dict.get(k, dflt)`. -/
def pyGetD (d : PyDict) (k dflt : PyStr) : PyStr :=
  match pyGet d k with
  | some v => v
  | none => dflt

/-- Python `dict.setdefault(k, v)` (a missing key is appended at the end). -/
def pySetdefault (d : PyDict) (k v : PyStr) : PyDict :=
  match pyGet d k with
  | some _ => d
  | none => d ++ [(k, v)]

/-- The five analysis fields, in the order of the `setdefault` loop. -/
def fiveFields : List PyStr :=
  ["summary".data, "risk_level".data, "risk_type".data, "risk_reason".data,
   "suggestion".data]

/-- The `setdefault` loop of `analyze_clause`. -/
def applyDefaults (d : PyDict) : PyDict :=
  fiveFields.foldl (fun acc k => pySetdefault acc k []) d

def system_instr : PyStr :=
  ("你是一名協助一般民眾閱讀合約的法律顧問。\n針對輸入的「單一合約條款」，請只輸出一個 JSON 物件，欄位為：summary, risk_level, risk_type, risk_reason, suggestion。\n限制：\n1. risk_level 必須使用繁體中文：只能是「低」、「中」、「高」三者之一。\n2. 其他欄位（summary, risk_type, risk_reason, suggestion）一律使用繁體中文，不得包含英文句子或簡體字。\n3. risk_type 請給出一個簡短的繁體中文分類，例如「自動續約風險」、「責任限制」、「資料隱私」等。\n4. 不要輸出任何解說文字、說明、Markdown，只能輸出一個純 JSON 字串。\n5. JSON 必須能被標準 JSON parser 解析（例如 Python json.loads），不要加註解、不要加反引號。\n").data

/-- The prompt built by `analyze_clause` for one clause. -/
def user_prompt (clause_text : PyStr) : PyStr :=
  system_instr ++ "\n\n請分析以下合約條款，依規格輸出 JSON：\n----\n".data ++
  clause_text ++ "\n----\n".data

def jsonErrIntro : PyStr := "LLM 回傳內容不是合法 JSON；原始輸出為：".data

/-- The record `analyze_clause` builds when `json.loads` fails. -/
def fallbackDict (content : PyStr) : PyDict :=
  [("summary".data, []),
   ("risk_level".data, "未知".data),
   ("risk_type".data, []),
   ("risk_reason".data, jsonErrIntro ++ content.take 200),
   ("suggestion".data, [])]

/-- `LLMClient.analyze_clause`, parameterized by the `json.loads` and
`_generate` oracles. -/
def analyze_clause (jl : JsonParse) (gen : GenOracle) (clause_text : PyStr) :
    Except PyErr PyDict :=
  match gen (user_prompt clause_text) with
  | .error e => .error e
  | .ok content =>
    match jl content with
    | some (.obj parsed) => .ok (applyDefaults parsed)
    | some (.nonObj ty) => .error (attributeError ty)
    | none => .ok (fallbackDict content)

/-- The per-clause result record stored by `analyze_document`. -/
structure AnalysisResult where
  clause : PyStr
  summary : PyStr
  risk_level : PyStr
  risk_type : PyStr
  risk_reason : PyStr
  suggestion : PyStr
deriving DecidableEq

/-- The record `analyze_document` appends for one clause. -/
def resultOfAnalysis (c : PyStr) (analysis : PyDict) : AnalysisResult :=
  { clause := c
    summary := pyGetD analysis ("summary".data) []
    risk_level := normalize_risk_level (some (pyGetD analysis ("risk_level".data) []))
    risk_type := pyGetD analysis ("risk_type".data) []
    risk_reason := pyGetD analysis ("risk_reason".data) []
    suggestion := pyGetD analysis ("suggestion".data) [] }

/-- `analyze_document(clauses, llm)` (the progress callback has no effect on
the returned value and is omitted).  An exception raised by the collaborator
call propagates, aborting the remaining clauses. -/
def analyze_document (jl : JsonParse) (gen : GenOracle) :
    List PyStr → Except PyErr (List AnalysisResult)
  | [] => .ok []
  | c :: cs =>
    match analyze_clause jl gen c with
    | .error e => .error e
    | .ok analysis =>
      match analyze_document jl gen cs with
      | .error e => .error e
      | .ok rs => .ok (resultOfAnalysis c analysis :: rs)


/-- Exact rational arithmetic on integer fractions, without gcd
normalization (so that the kernel can evaluate it): `num / den` with the
invariant `0 < den` maintained by every constructor below. -/
structure Frac where
  num : ℤ
  den : ℤ
deriving DecidableEq

def fmk (n : ℤ) : Frac := ⟨n, 1⟩

def fneg (a : Frac) : Frac := ⟨-a.num, a.den⟩

def fsub (a b : Frac) : Frac := ⟨a.num * b.den - b.num * a.den, a.den * b.den⟩

def fmul (a b : Frac) : Frac := ⟨a.num * b.num, a.den * b.den⟩

/-- Exact rational division; flips signs so the denominator stays positive
(the divisor is never zero anywhere it is used). -/
def fdivF (a b : Frac) : Frac :=
  if 0 ≤ b.num then ⟨a.num * b.den, a.den * b.num⟩
  else ⟨-(a.num * b.den), -(a.den * b.num)⟩

/-- `a = 0`, for `0 < a.den`. -/
def fisZero (a : Frac) : Bool := decide (a.num = 0)

/-- `a < 0`, for `0 < a.den`. -/
def fisNeg (a : Frac) : Bool := decide (a.num < 0)

/-- `⌊a⌋`, for `0 < a.den` (`Int./` is `Int.ediv`, floor division). -/
def ffloor (a : Frac) : ℤ := a.num / a.den

/-- Python `int()` on an exact value: truncation toward zero, for `0 < a.den`. -/
def pytrunc (a : Frac) : ℤ :=
  if 0 ≤ a.num then a.num / a.den else -(-a.num / a.den)

/-- Floor of log2 with structural fuel: `log2fuel f n = ⌊log2 n⌋` for
`1 ≤ n < 2 ^ f`. -/
def log2fuel : ℕ → ℕ → ℕ
  | 0, _ => 0
  | f + 1, n => if n ≤ 1 then 0 else log2fuel f (n / 2) + 1

/-- `2 ^ e` as a fraction, for an integer exponent. -/
def pow2F (e : ℤ) : Frac :=
  if 0 ≤ e then ⟨2 ^ e.toNat, 1⟩ else ⟨1, 2 ^ (-e).toNat⟩

/-- Round a fraction to an integer, ties to even (`x` with `0 < x.den`). -/
def rne (x : Frac) : ℤ :=
  let f := ffloor x
  let r := fsub x (fmk f)
  if 2 * r.num < r.den then f
  else if r.den < 2 * r.num then f + 1
  else if f % 2 = 0 then f else f + 1

/-- `⌊log2 q⌋` for fractions `q ≥ 2 ^ (-200)` in this computation's range. -/
def qlog2 (q : Frac) : ℤ :=
  (log2fuel 800 (Int.toNat (ffloor (fmul q (pow2F 200)))) : ℤ) - 200

def flPos (q : Frac) : Frac :=
  let e := qlog2 q
  fmul (fmk (rne (fmul q (pow2F (52 - e))))) (pow2F (e - 52))

/-- Round an exact value to the nearest IEEE-754 binary64 value (ties to
even).  Every arithmetic operation of `compute_overall_risk_score` runs on
Python floats, i.e. returns the correctly-rounded exact result; all values
reached there are far inside the normal, non-overflowing double range,
where this model is exact. -/
def fl (q : Frac) : Frac :=
  if fisZero q then fmk 0 else if fisNeg q then fneg (flPos (fneg q)) else flPos q

/-- The weight table `score_map = {低: 1, 中: 3, 高: 5}` as a lookup. -/
def scoreMap (lv : PyStr) : Option ℕ :=
  if lv = "低".data then some 1
  else if lv = "中".data then some 3
  else if lv = "高".data then some 5
  else none

/-- The filtered weight list of `compute_overall_risk_score`: one weight per
result whose normalized level is enumerated; Unknown and anything else is
skipped. -/
def weights (rs : List AnalysisResult) : List ℕ :=
  rs.filterMap (fun r => scoreMap (normalize_risk_level (some r.risk_level)))

/-- `max(0, min(100, int((avg - 1) / (5 - 1) * 100)))` in float arithmetic. -/
def scaleScore (avg : Frac) : ℤ :=
  max 0 (min 100 (pytrunc (fl (fmul (fl (fdivF (fl (fsub avg (fmk 1))) (fmk 4))) (fmk 100)))))

/-- `compute_overall_risk_score(results)`. -/
def compute_overall_risk_score (rs : List AnalysisResult) : ℤ :=
  let scores := weights rs
  if scores.isEmpty then 0
  else scaleScore (fl (fdivF (fmk (scores.sum : ℤ)) (fmk (scores.length : ℤ))))

/-- Modelled from the spec: the ScoreAggregator of §4.6 with the mean and
rescale `(mean - 1) / 4 * 100` computed in exact rational arithmetic and
then truncated toward zero, as the words of the spec describe.  Kept for
comparison with `compute_overall_risk_score`, which runs on Python floats. -/
def spec_exact_score (rs : List AnalysisResult) : ℤ :=
  let scores := weights rs
  if scores.isEmpty then 0
  else max 0 (min 100 (pytrunc
    (fmul (fdivF (fsub (fdivF (fmk (scores.sum : ℤ)) (fmk (scores.length : ℤ))) (fmk 1)) (fmk 4)) (fmk 100))))

/-- The per-level count `sum(1 for r in results if normalize_risk_level(...) == lv)`
computed in `create_markdown_report` (and the web layer). -/
def level_count (lv : PyStr) (rs : List AnalysisResult) : ℕ :=
  (rs.filter (fun r => decide (normalize_risk_level (some r.risk_level) = lv))).length

/-- Replace a stored risk level by its normalization (the pre-normalization
of claim C10). -/
def renormResult (r : AnalysisResult) : AnalysisResult :=
  { r with risk_level := normalize_risk_level (some r.risk_level) }

def natStr (n : ℕ) : PyStr := (toString n).data

def intStr (n : ℤ) : PyStr := (toString n).data

/-- One clause section of the markdown report. -/
def reportSection (i : ℕ) (r : AnalysisResult) : List PyStr :=
  ["## 第 ".data ++ natStr i ++ " 條\n".data,
   "**原文：**".data,
   "```text".data,
   r.clause,
   "```\n".data,
   "- **摘要**：".data ++ r.summary,
   "- **風險等級**：".data ++ normalize_risk_level (some r.risk_level),
   "- **風險類型**：".data ++ r.risk_type,
   "- **風險原因**：".data ++ r.risk_reason,
   "- **建議**：".data ++ r.suggestion,
   "\n---\n".data]

def reportSections : ℕ → List AnalysisResult → List PyStr
  | _, [] => []
  | i, r :: rs => reportSection i r ++ reportSections (i + 1) rs

/-- `create_markdown_report(results)`. -/
def create_markdown_report (rs : List AnalysisResult) : PyStr :=
  joinNL (["# 合約風險分析報告\n".data,
    "- 條款總數：".data ++ natStr rs.length,
    "- 整體風險分數（0~100）：**".data ++ intStr (compute_overall_risk_score rs) ++ "**".data,
    "- 高風險條款數量：**".data ++ natStr (level_count ("高".data) rs) ++ "**".data,
    "- 中風險條款數量：**".data ++ natStr (level_count ("中".data) rs) ++ "**".data,
    "- 低風險條款數量：**".data ++ natStr (level_count ("低".data) rs) ++ "**".data,
    "\n---\n".data] ++ reportSections 1 rs)

/-- A result record carrying only a risk level (for concrete score tests). -/
def lvlResult (lv : PyStr) : AnalysisResult :=
  { clause := "條".data, summary := [], risk_level := lv, risk_type := [],
    risk_reason := [], suggestion := [] }

theorem trimLeft_idem (l : PyStr) : trimLeft (trimLeft l) = trimLeft l := by
  induction l with
  | nil => rfl
  | cons c t ih =>
    by_cases h : isPySpace c = true
    · simpa [trimLeft, List.dropWhile_cons, h] using ih
    · simp [trimLeft, List.dropWhile_cons, h]

theorem trimLeft_eq_self (c : Char) (t : PyStr) (h : isPySpace c = false) :
    trimLeft (c :: t) = c :: t := by
  simp [trimLeft, List.dropWhile_cons, h]

theorem trimLeft_cases (l : PyStr) :
    trimLeft l = [] ∨ ∃ c t, trimLeft l = c :: t ∧ isPySpace c = false := by
  induction l with
  | nil => exact Or.inl rfl
  | cons c t ih =>
    by_cases h : isPySpace c = true
    · simpa [trimLeft, List.dropWhile_cons, h] using ih
    · refine Or.inr ⟨c, t, ?_, by simpa using h⟩
      simp [trimLeft, List.dropWhile_cons, h]

theorem trimLeft_decomp (l : PyStr) :
    ∃ p, (∀ c ∈ p, isPySpace c = true) ∧ l = p ++ trimLeft l := by
  induction l with
  | nil => exact ⟨[], by simp, rfl⟩
  | cons c t ih =>
    by_cases h : isPySpace c = true
    · obtain ⟨p, hp, he⟩ := ih
      refine ⟨c :: p, ?_, ?_⟩
      · intro x hx
        rcases List.mem_cons.mp hx with rfl | hx
        · exact h
        · exact hp x hx
      · simp only [trimLeft, List.dropWhile_cons, h, if_pos]
        simpa using he
    · exact ⟨[], by simp, by rw [trimLeft_eq_self c t (by simpa using h)]; simp⟩

theorem trimRight_decomp (m : PyStr) :
    ∃ s, (∀ c ∈ s, isPySpace c = true) ∧ m = trimRight m ++ s := by
  obtain ⟨p, hp, he⟩ := trimLeft_decomp m.reverse
  refine ⟨p.reverse, by intro c hc; exact hp c (List.mem_reverse.mp hc), ?_⟩
  have := congrArg List.reverse he
  simpa [trimRight, List.reverse_append] using this

theorem trimRight_idem (m : PyStr) : trimRight (trimRight m) = trimRight m := by
  simp [trimRight, List.reverse_reverse, trimLeft_idem]

theorem trimLeft_eq_nil_all (l : PyStr) (h : trimLeft l = []) :
    ∀ c ∈ l, isPySpace c = true := by
  induction l with
  | nil => simp
  | cons c t ih =>
    by_cases hs : isPySpace c = true
    · rw [trimLeft, List.dropWhile_cons, if_pos hs] at h
      intro x hx
      rcases List.mem_cons.mp hx with rfl | hx
      · exact hs
      · exact ih h x hx
    · rw [trimLeft_eq_self c t (by simpa using hs)] at h
      exact absurd h (by simp)

theorem all_space_trimLeft (l : PyStr) (h : ∀ c ∈ l, isPySpace c = true) :
    trimLeft l = [] := by
  induction l with
  | nil => rfl
  | cons c t ih =>
    rw [trimLeft, List.dropWhile_cons, if_pos (h c (List.mem_cons_self c t))]
    exact ih (fun x hx => h x (List.mem_cons_of_mem c hx))

theorem pyStrip_eq_nil_all (s : PyStr) (h : pyStrip s = []) :
    ∀ c ∈ s, isPySpace c = true := by
  have h1 : trimLeft (trimLeft s).reverse = [] := by
    have := congrArg List.reverse h
    simpa [pyStrip, trimRight] using this
  have h2 : ∀ c ∈ trimLeft s, isPySpace c = true := by
    intro c hc
    exact trimLeft_eq_nil_all _ h1 c (List.mem_reverse.mpr hc)
  obtain ⟨p, hp, he⟩ := trimLeft_decomp s
  intro c hc
  rw [he] at hc
  rcases List.mem_append.mp hc with hc | hc
  · exact hp c hc
  · exact h2 c hc

theorem all_space_pyStrip (s : PyStr) (h : ∀ c ∈ s, isPySpace c = true) :
    pyStrip s = [] := by
  rw [pyStrip, all_space_trimLeft s h]
  rfl

theorem pyStrip_cons_ne_nil (c : Char) (t : PyStr) (h : isPySpace c = false) :
    pyStrip (c :: t) ≠ [] := by
  intro he
  have := pyStrip_eq_nil_all _ he c (List.mem_cons_self c t)
  rw [h] at this
  exact Bool.false_ne_true this

theorem pyStrip_head (s : PyStr) (c : Char) (t : PyStr) (h : pyStrip s = c :: t) :
    isPySpace c = false := by
  obtain ⟨sfx, _, he⟩ := trimRight_decomp (trimLeft s)
  rw [pyStrip] at h
  rw [h] at he
  rcases trimLeft_cases s with h0 | ⟨c', t', he', hc'⟩
  · rw [h0] at he
    exact absurd he.symm (by simp)
  · rw [he'] at he
    have : c' = c := (List.cons.injEq _ _ _ _ ▸ he).1
    rw [← this]
    exact hc'

theorem pyStrip_idem (s : PyStr) : pyStrip (pyStrip s) = pyStrip s := by
  have h1 : trimLeft (pyStrip s) = pyStrip s := by
    cases e : pyStrip s with
    | nil => rfl
    | cons c t => exact trimLeft_eq_self c t (pyStrip_head s c t e)
  rw [pyStrip, h1, pyStrip, trimRight_idem]

theorem splitNL_ne_nil (s : PyStr) : splitNL s ≠ [] := by
  induction s with
  | nil => simp [splitNL]
  | cons c t ih =>
    by_cases h : c = '\n'
    · simp [splitNL, h]
    · simp only [splitNL, if_neg h]
      cases e : splitNL t with
      | nil => exact absurd e ih
      | cons x xs => simp

theorem joinNL_splitNL (s : PyStr) : joinNL (splitNL s) = s := by
  induction s with
  | nil => rfl
  | cons c t ih =>
    by_cases h : c = '\n'
    · subst h
      simp only [splitNL, if_pos rfl]
      cases e : splitNL t with
      | nil => exact absurd e (splitNL_ne_nil t)
      | cons x xs =>
        rw [e] at ih
        show joinNL ([] :: x :: xs) = '\n' :: t
        rw [joinNL, List.nil_append, ih]
    · simp only [splitNL, if_neg h]
      cases e : splitNL t with
      | nil => exact absurd e (splitNL_ne_nil t)
      | cons x xs =>
        rw [e] at ih
        rw [List.modifyHead_cons]
        cases xs with
        | nil =>
          rw [joinNL] at ih
          show joinNL [c :: x] = c :: t
          rw [joinNL, ih]
        | cons y ys =>
          rw [joinNL] at ih
          show joinNL ((c :: x) :: y :: ys) = c :: t
          rw [joinNL, List.cons_append, ih]

theorem splitNL_mem_subset (s : PyStr) :
    ∀ l ∈ splitNL s, ∀ c ∈ l, c ∈ s := by
  induction s with
  | nil => simp [splitNL]
  | cons a t ih =>
    intro l hl c hc
    by_cases h : a = '\n'
    · subst h
      simp only [splitNL, if_pos rfl] at hl
      rcases List.mem_cons.mp hl with rfl | hl
      · exact absurd hc (by simp)
      · exact List.mem_cons_of_mem _ (ih l hl c hc)
    · simp only [splitNL, if_neg h] at hl
      cases e : splitNL t with
      | nil => exact absurd e (splitNL_ne_nil t)
      | cons x xs =>
        rw [e, List.modifyHead_cons] at hl
        rcases List.mem_cons.mp hl with rfl | hl
        · rcases List.mem_cons.mp hc with rfl | hc
          · exact List.mem_cons_self c t
          · have hx : x ∈ splitNL t := by rw [e]; exact List.mem_cons_self x xs
            exact List.mem_cons_of_mem _ (ih x hx c hc)
        · have hx : l ∈ splitNL t := by rw [e]; exact List.mem_cons_of_mem x hl
          exact List.mem_cons_of_mem _ (ih l hx c hc)

theorem is_clause_start_blank (l : PyStr) (ha hc : Bool) (h : pyStrip l = []) :
    is_clause_start l ha hc = false := by
  simp [is_clause_start, h]

theorem segAccum_no_boundary (ha hc : Bool) (lines : List PyStr) :
    ∀ buf acc, (∀ l ∈ lines, is_clause_start l ha hc = false) →
      segAccum ha hc lines buf acc =
        (if (pyStrip (joinNL (buf ++ lines))).isEmpty then acc
         else acc ++ [pyStrip (joinNL (buf ++ lines))]) := by
  induction lines with
  | nil => intro buf acc _; simp [segAccum]
  | cons l ls ih =>
    intro buf acc h
    have hl : is_clause_start l ha hc = false := h l (List.mem_cons_self l ls)
    rw [segAccum, hl]
    simp only [Bool.false_and, Bool.false_eq_true, if_false]
    rw [ih (buf ++ [l]) acc (fun x hx => h x (List.mem_cons_of_mem l hx))]
    rw [List.append_assoc, List.singleton_append]

theorem lineSep_isSpace (c : Char) (h : isLineSep c = true) : isPySpace c = true := by
  simp only [isLineSep, Bool.or_eq_true, decide_eq_true_eq] at h
  simp only [isPySpace, Bool.or_eq_true, decide_eq_true_eq, Bool.and_eq_true]
  omega

theorem slGo_cons_decomp :
    ∀ (t acc : PyStr), acc ≠ [] → ∃ tl rest, slGo t acc = (acc.reverse ++ tl) :: rest := by
  intro t acc
  induction t, acc using slGo.induct with
  | case1 acc he =>
    intro h
    exact absurd (by simpa using he) h
  | case2 acc he =>
    intro _
    exact ⟨[], [], by simp [slGo, he]⟩
  | case3 t acc ih =>
    intro _
    exact ⟨[], slGo t [], by simp [slGo]⟩
  | case4 c t acc hpat hsep ih =>
    intro _
    refine ⟨[], slGo t [], ?_⟩
    simp only [slGo, hpat, hsep]
    simp
  | case5 c t acc hpat hsep ih =>
    intro _
    obtain ⟨tl, rest, he⟩ := ih (by simp)
    refine ⟨c :: tl, rest, ?_⟩
    simp only [slGo, hpat, hsep, Bool.false_eq_true, if_false]
    rw [he]
    simp

theorem isPySpace_cr : isPySpace '\r' = true := by decide

theorem pySplitlines_head (c : Char) (t : PyStr) (hc : isPySpace c = false) :
    ∃ tl rest, pySplitlines (c :: t) = (c :: tl) :: rest := by
  have hcr : ∀ (t1 : List Char), c = '\r' → t = '\n' :: t1 → False := by
    intro t1 e _
    rw [e, isPySpace_cr] at hc
    exact Bool.noConfusion hc
  have hsep : ¬ isLineSep c = true := by
    intro hs
    rw [lineSep_isSpace c hs] at hc
    exact Bool.noConfusion hc
  obtain ⟨tl, rest, he⟩ := slGo_cons_decomp t [c] (by simp)
  refine ⟨tl, rest, ?_⟩
  rw [pySplitlines]
  simp only [slGo, hcr, hsep, Bool.false_eq_true, if_false]
  rw [he]
  simp

theorem nonblankLines_ne_nil (c : Char) (t : PyStr) (hc : isPySpace c = false) :
    nonblankLines (c :: t) ≠ [] := by
  obtain ⟨tl, rest, he⟩ := pySplitlines_head c t hc
  rw [nonblankLines, he]
  intro hnil
  rw [List.map_cons, List.filter_cons] at hnil
  have hne : pyStrip (c :: tl) ≠ [] := pyStrip_cons_ne_nil c tl hc
  rw [if_pos (by simpa using hne)] at hnil
  exact List.noConfusion hnil

theorem pyGet_mem_values (ps : List (PyStr × PyStr)) (s v : PyStr)
    (h : pyGet ps s = some v) : v ∈ ps.map Prod.snd := by
  induction ps with
  | nil => exact Option.noConfusion h
  | cons kv t ih =>
    obtain ⟨k, w⟩ := kv
    rw [pyGet] at h
    split_ifs at h with hk
    · cases h
      exact List.mem_cons_self _ _
    · exact List.mem_cons_of_mem _ (ih h)

theorem mappingLookup_values (s v : PyStr) (h : pyGet mappingPairs s = some v) :
    normalize_risk_level (some v) = v := by
  have hv := pyGet_mem_values _ _ _ h
  have h3 : v = "低".data ∨ v = "中".data ∨ v = "高".data := by
    simp only [mappingPairs, List.map_cons, List.map_nil, List.mem_cons,
      List.not_mem_nil, or_false] at hv
    tauto
  rcases h3 with rfl | rfl | rfl <;> decide

theorem normalize_idem_helper (lv : Option PyStr) :
    normalize_risk_level (some (normalize_risk_level lv)) = normalize_risk_level lv := by
  cases lv with
  | none => decide
  | some s =>
    cases e : pyGet mappingPairs (pyStrip s) with
    | some v =>
      have hv := mappingLookup_values _ v e
      simp only [normalize_risk_level, e]
      exact hv
    | none =>
      by_cases hnil : (pyStrip s).isEmpty = true
      · simp only [normalize_risk_level, e, hnil, if_pos]
        decide
      · simp only [normalize_risk_level, e, hnil, if_false, Bool.false_eq_true]
        simp only [normalize_risk_level, pyStrip_idem, e, hnil, if_false, Bool.false_eq_true]

theorem ffloor_scale (k n d : ℤ) (hk : 0 < k) :
    ffloor ⟨k * n, k * d⟩ = ffloor ⟨n, d⟩ := by
  simp only [ffloor]
  exact Int.mul_ediv_mul_of_pos n d hk

theorem rne_scale (k n d : ℤ) (hk : 0 < k) : rne ⟨k * n, k * d⟩ = rne ⟨n, d⟩ := by
  have hf : ffloor ⟨k * n, k * d⟩ = ffloor ⟨n, d⟩ := ffloor_scale k n d hk
  simp only [rne, fsub, fmk, hf]
  have h1 : 2 * (k * n * 1 - ffloor ⟨n, d⟩ * (k * d)) < k * d * 1 ↔
      2 * (n * 1 - ffloor ⟨n, d⟩ * d) < d * 1 := by
    rw [show 2 * (k * n * 1 - ffloor ⟨n, d⟩ * (k * d)) =
          k * (2 * (n * 1 - ffloor ⟨n, d⟩ * d)) by ring,
        show k * d * 1 = k * (d * 1) by ring]
    exact mul_lt_mul_left hk
  have h2 : k * d * 1 < 2 * (k * n * 1 - ffloor ⟨n, d⟩ * (k * d)) ↔
      d * 1 < 2 * (n * 1 - ffloor ⟨n, d⟩ * d) := by
    rw [show 2 * (k * n * 1 - ffloor ⟨n, d⟩ * (k * d)) =
          k * (2 * (n * 1 - ffloor ⟨n, d⟩ * d)) by ring,
        show k * d * 1 = k * (d * 1) by ring]
    exact mul_lt_mul_left hk
  simp only [h1, h2]

theorem qlog2_scale (k n d : ℤ) (hk : 0 < k) : qlog2 ⟨k * n, k * d⟩ = qlog2 ⟨n, d⟩ := by
  simp only [qlog2, fmul]
  rw [show k * n * (pow2F 200).num = k * (n * (pow2F 200).num) by ring,
      show k * d * (pow2F 200).den = k * (d * (pow2F 200).den) by ring,
      ffloor_scale _ _ _ hk]

theorem flPos_scale (k n d : ℤ) (hk : 0 < k) : flPos ⟨k * n, k * d⟩ = flPos ⟨n, d⟩ := by
  have hq := qlog2_scale k n d hk
  have hr : ∀ j : ℤ, rne (fmul ⟨k * n, k * d⟩ (pow2F j)) = rne (fmul ⟨n, d⟩ (pow2F j)) := by
    intro j
    simp only [fmul]
    rw [show k * n * (pow2F j).num = k * (n * (pow2F j).num) by ring,
        show k * d * (pow2F j).den = k * (d * (pow2F j).den) by ring,
        rne_scale _ _ _ hk]
  simp only [flPos, hq, hr]

theorem fl_scale (k n d : ℤ) (hk : 0 < k) : fl ⟨k * n, k * d⟩ = fl ⟨n, d⟩ := by
  have hknz : k ≠ 0 := by omega
  have hz : (k * n = 0) ↔ (n = 0) := by
    constructor
    · intro h
      rcases mul_eq_zero.mp h with h | h
      · exact absurd h hknz
      · exact h
    · intro h
      rw [h, mul_zero]
  have hneg : (k * n < 0) ↔ (n < 0) := by
    rw [show (0 : ℤ) = k * 0 by ring]
    constructor
    · intro h
      exact (mul_lt_mul_left hk).mp (by simpa using h)
    · intro h
      simpa using (mul_lt_mul_left hk).mpr h
  simp only [fl, fisZero, fisNeg, fneg, decide_eq_true_eq, hz, hneg]
  by_cases h0 : n = 0
  · simp [h0]
  · by_cases hn : n < 0
    · rw [if_neg h0, if_neg h0, if_pos hn, if_pos hn,
          show -(k * n) = k * (-n) by ring, flPos_scale k (-n) d hk]
    · rw [if_neg h0, if_neg h0, if_neg hn, if_neg hn, flPos_scale k n d hk]

theorem weights_const (rs : List AnalysisResult) (w : ℕ) (lv : PyStr)
    (hw : scoreMap lv = some w) :
    (∀ r ∈ rs, normalize_risk_level (some r.risk_level) = lv) →
      weights rs = List.replicate rs.length w := by
  induction rs with
  | nil => intro _; rfl
  | cons r t ih =>
    intro hlv
    simp only [weights, List.filterMap_cons, hlv r (List.mem_cons_self r t), hw,
      List.length_cons, List.replicate_succ]
    exact congrArg _ (ih (fun x hx => hlv x (List.mem_cons_of_mem r hx)))

theorem weights_none (rs : List AnalysisResult)
    (h : ∀ r ∈ rs, scoreMap (normalize_risk_level (some r.risk_level)) = none) :
    weights rs = [] := by
  rw [weights, List.filterMap_eq_nil_iff]
  exact h

theorem replicate_not_isEmpty (n w : ℕ) (hn : n ≠ 0) :
    (List.replicate n w).isEmpty = false := by
  cases n with
  | zero => exact absurd rfl hn
  | succ m => rw [List.replicate_succ]; rfl

theorem score_const_level (rs : List AnalysisResult) (w : ℕ) (lv : PyStr)
    (hw : scoreMap lv = some w) (hne : rs ≠ [])
    (hlv : ∀ r ∈ rs, normalize_risk_level (some r.risk_level) = lv) :
    compute_overall_risk_score rs = scaleScore (fl ⟨(w : ℤ), 1⟩) := by
  have hrepl := weights_const rs w lv hw hlv
  have hn : rs.length ≠ 0 := by
    intro h
    exact hne (List.length_eq_zero.mp h)
  have hpos : (0 : ℤ) < (rs.length : ℤ) := by
    exact_mod_cast Nat.pos_of_ne_zero hn
  simp only [compute_overall_risk_score, hrepl, replicate_not_isEmpty _ _ hn,
    Bool.false_eq_true, if_false, List.sum_replicate, List.length_replicate,
    smul_eq_mul]
  have hdiv : fdivF (fmk ((rs.length * w : ℕ) : ℤ)) (fmk (rs.length : ℤ)) =
      ⟨(rs.length : ℤ) * (w : ℤ), (rs.length : ℤ) * 1⟩ := by
    simp only [fdivF, fmk]
    rw [if_pos (by positivity)]
    have hcast : ((rs.length * w : ℕ) : ℤ) = (rs.length : ℤ) * (w : ℤ) := by
      push_cast
      ring
    rw [hcast]
    simp only [mul_one, one_mul]
  rw [hdiv, fl_scale (rs.length : ℤ) (w : ℤ) 1 hpos]

theorem weights_filter_enumerated (rs : List AnalysisResult) :
    weights (rs.filter
      (fun r => (scoreMap (normalize_risk_level (some r.risk_level))).isSome)) =
    weights rs := by
  induction rs with
  | nil => rfl
  | cons r t ih =>
    rw [List.filter_cons]
    cases h : scoreMap (normalize_risk_level (some r.risk_level)) with
    | some w =>
      simp only [Option.isSome_some]
      rw [if_pos trivial]
      simp only [weights, List.filterMap_cons, h]
      exact congrArg _ ih
    | none =>
      rw [if_neg (by simp)]
      simp only [weights, List.filterMap_cons, h]
      exact ih

theorem renorm_level (r : AnalysisResult) :
    normalize_risk_level (some (renormResult r).risk_level) =
      normalize_risk_level (some r.risk_level) := by
  rw [renormResult]
  exact normalize_idem_helper (some r.risk_level)

theorem weights_renorm (rs : List AnalysisResult) :
    weights (rs.map renormResult) = weights rs := by
  induction rs with
  | nil => rfl
  | cons r t ih =>
    simp only [List.map_cons, weights, List.filterMap_cons, renorm_level r]
    cases scoreMap (normalize_risk_level (some r.risk_level)) with
    | some w => exact congrArg _ ih
    | none => exact ih

theorem level_count_renorm (lv : PyStr) (rs : List AnalysisResult) :
    level_count lv (rs.map renormResult) = level_count lv rs := by
  simp only [level_count]
  induction rs with
  | nil => rfl
  | cons r t ih =>
    simp only [List.map_cons, List.filter_cons, renorm_level r]
    by_cases h : normalize_risk_level (some r.risk_level) = lv
    · rw [if_pos (by simp [h]), if_pos (by simp [h]), List.length_cons,
        List.length_cons, ih]
    · rw [if_neg (by simp [h]), if_neg (by simp [h]), ih]

theorem score_clamp_range (rs : List AnalysisResult) :
    0 ≤ compute_overall_risk_score rs ∧ compute_overall_risk_score rs ≤ 100 := by
  rw [compute_overall_risk_score]
  by_cases h : (weights rs).isEmpty = true
  · rw [if_pos h]
    exact ⟨le_refl 0, by norm_num⟩
  · rw [if_neg h, scaleScore]
    constructor
    · exact le_max_left 0 _
    · exact max_le (by norm_num) (min_le_left _ _)

/-- C9: `normalize_risk_level` is total — it is defined as a function
returning a value for every input, including the absent (`None`) case — and
idempotent: normalizing an already-normalized value returns it unchanged. -/
theorem C9_normalize_total_idem :
    ∀ lv : Option PyStr,
      normalize_risk_level (some (normalize_risk_level lv)) = normalize_risk_level lv :=
  normalize_idem_helper

/-- C1 counterexample: the unrecognized non-empty token `Critical` is not
mapped to Unknown (`未知`); `normalize_risk_level` returns the stripped
input itself, because the lookup default is `s if s else "未知"`. -/
theorem C1_counterexample :
    normalize_risk_level (some ("Critical".data)) = "Critical".data ∧
    normalize_risk_level (some ("Critical".data)) ≠ "未知".data := by
  exact ⟨by decide, by decide⟩

/-- C1 (amended): `normalize_risk_level` maps, by exact match after an
initial strip, the known spellings to the canonical values; the empty and
absent cases map to Unknown (`未知`); but an unrecognized non-empty string
is returned unchanged (after the strip) instead of mapping to Unknown. -/
theorem C1_normalize_table :
    (∀ kv ∈ mappingPairs, normalize_risk_level (some kv.1) = kv.2) ∧
    normalize_risk_level none = "未知".data ∧
    (∀ s : PyStr, pyStrip s = [] → normalize_risk_level (some s) = "未知".data) ∧
    (∀ s : PyStr, pyGet mappingPairs (pyStrip s) = none → pyStrip s ≠ [] →
      normalize_risk_level (some s) = pyStrip s) := by
  refine ⟨by decide, by decide, ?_, ?_⟩
  · intro s h
    simp only [normalize_risk_level, h]
    decide
  · intro s hget hne
    simp only [normalize_risk_level, hget]
    rw [if_neg (fun hc => hne (List.isEmpty_iff.mp hc))]

theorem C1_normalize_table_witness :
    normalize_risk_level (some ("   ".data)) = "未知".data ∧
    normalize_risk_level (some (" 輕微 ".data)) = "輕微".data :=
  ⟨C1_normalize_table.2.2.1 ("   ".data) (by decide),
   C1_normalize_table.2.2.2 (" 輕微 ".data) (by decide) (by decide)⟩

/-- C2 counterexample: a document whose detected StyleProfile has
`has_article_marker` true (with `has_enumerated_marker` also true, as the
code sets them independently): `is_clause_start` accepts the line
`一、保密義務之內容說明` although it does not match the Article pattern, so
the document's two Article clauses are split into three clauses, not two. -/
theorem C2_counterexample :
    detect_style (normalizeCRLF
      ("第一條 甲方之義務\n一、保密義務之內容說明\n第二條 乙方之義務內容".data)) =
      (true, true) ∧
    is_clause_start ("一、保密義務之內容說明".data) true true = true ∧
    hashedArticle (pyStrip ("一、保密義務之內容說明".data)) = false ∧
    segment_clauses ("第一條 甲方之義務\n一、保密義務之內容說明\n第二條 乙方之義務內容".data) =
      ["第一條 甲方之義務".data, "一、保密義務之內容說明".data, "第二條 乙方之義務內容".data] := by
  exact ⟨by decide, by decide, by decide, by decide⟩

/-- C2 (amended): when `has_article_marker` is true, a line is a clause
boundary exactly when it is non-blank and matches the hash-prefixed Article
pattern, or `has_enumerated_marker` is also true and it matches the
CJK-enumeration pattern at line start.  Fallback markers (`1.`, `(1)`)
never split such documents: in the concrete Article document below the
nested `1.` line stays inside its clause. -/
theorem C2_style_precedence :
    (∀ (line : PyStr) (hc : Bool),
      is_clause_start line true hc =
        (!(pyStrip line).isEmpty &&
          (hashedArticle (pyStrip line) || (hc && enumAnchor (pyStrip line))))) ∧
    segment_clauses ("第一條 保密義務如下\n1. 雙方應保守營業秘密\n第二條 違約責任之內容".data) =
      ["第一條 保密義務如下\n1. 雙方應保守營業秘密".data, "第二條 違約責任之內容".data] := by
  constructor
  · intro line hc
    cases he : (pyStrip line).isEmpty <;>
      cases hb : hashedArticle (pyStrip line) <;>
        cases hc' : hc <;>
          cases hen : enumAnchor (pyStrip line) <;>
            simp [is_clause_start, he, hb, hc', hen]
  · decide

/-- C4 counterexample: for four Low results and one Medium result the code
returns 9, while truncating the exact value of `(mean - 1) / 4 * 100`
(here `(1.4 - 1) / 4 * 100 = 10`) gives 10: the float arithmetic rounds
`1.4` down to `1.4 - 0.4 * 2⁻⁵²`, and `int()` then truncates `9.999…8`. -/
theorem C4_counterexample :
    compute_overall_risk_score
      [lvlResult ("低".data), lvlResult ("低".data), lvlResult ("低".data),
       lvlResult ("低".data), lvlResult ("中".data)] = 9 ∧
    spec_exact_score
      [lvlResult ("低".data), lvlResult ("低".data), lvlResult ("低".data),
       lvlResult ("低".data), lvlResult ("中".data)] = 10 := by
  exact ⟨by decide, by decide⟩

/-- C4 (amended): `compute_overall_risk_score` weights Low=1, Medium=3,
High=5, excludes Unknown and every non-enumerated value from numerator and
denominator, returns 0 for an empty or all-excluded input, rescales the
IEEE-754 double mean via `(mean - 1) / 4 * 100` computed in double
arithmetic (which can differ by one from exact truncation), truncates
toward zero and clamps; all-Low gives 0, all-High gives 100, and the
result is always an integer in `[0, 100]`. -/
theorem C4_score_aggregator :
    (∀ rs : List AnalysisResult,
      compute_overall_risk_score (rs.filter
        (fun r => (scoreMap (normalize_risk_level (some r.risk_level))).isSome)) =
      compute_overall_risk_score rs) ∧
    (∀ rs : List AnalysisResult,
      (∀ r ∈ rs, scoreMap (normalize_risk_level (some r.risk_level)) = none) →
      compute_overall_risk_score rs = 0) ∧
    (∀ rs : List AnalysisResult, rs ≠ [] →
      (∀ r ∈ rs, normalize_risk_level (some r.risk_level) = "低".data) →
      compute_overall_risk_score rs = 0) ∧
    (∀ rs : List AnalysisResult, rs ≠ [] →
      (∀ r ∈ rs, normalize_risk_level (some r.risk_level) = "高".data) →
      compute_overall_risk_score rs = 100) ∧
    (∀ rs : List AnalysisResult,
      0 ≤ compute_overall_risk_score rs ∧ compute_overall_risk_score rs ≤ 100) := by
  refine ⟨?_, ?_, ?_, ?_, score_clamp_range⟩
  · intro rs
    simp only [compute_overall_risk_score, weights_filter_enumerated]
  · intro rs h
    simp [compute_overall_risk_score, weights_none rs h]
  · intro rs hne hlv
    rw [score_const_level rs 1 ("低".data) (by decide) hne hlv]
    decide
  · intro rs hne hlv
    rw [score_const_level rs 5 ("高".data) (by decide) hne hlv]
    decide

theorem C4_score_aggregator_witness :
    compute_overall_risk_score [lvlResult ("未知".data)] = 0 ∧
    compute_overall_risk_score [lvlResult ("低".data)] = 0 ∧
    compute_overall_risk_score [lvlResult ("高".data), lvlResult ("High".data)] = 100 :=
  ⟨C4_score_aggregator.2.1 [lvlResult ("未知".data)] (by decide),
   C4_score_aggregator.2.2.1 [lvlResult ("低".data)] (by decide) (by decide),
   C4_score_aggregator.2.2.2.1 [lvlResult ("高".data), lvlResult ("High".data)]
     (by decide) (by decide)⟩

/-- C10: replacing each stored risk level by its normalization is a no-op
for `compute_overall_risk_score` and for the per-level counts computed in
`create_markdown_report`, because both re-apply `normalize_risk_level`. -/
theorem C10_renorm_noop :
    ∀ rs : List AnalysisResult,
      compute_overall_risk_score (rs.map renormResult) = compute_overall_risk_score rs ∧
      level_count ("高".data) (rs.map renormResult) = level_count ("高".data) rs ∧
      level_count ("中".data) (rs.map renormResult) = level_count ("中".data) rs ∧
      level_count ("低".data) (rs.map renormResult) = level_count ("低".data) rs := by
  intro rs
  refine ⟨?_, level_count_renorm _ rs, level_count_renorm _ rs, level_count_renorm _ rs⟩
  simp only [compute_overall_risk_score, weights_renorm]

/-- C5: for every input in which no line is classified as a clause boundary,
`segment_clauses` returns exactly one clause, the whole trimmed (normalized)
text, provided that text is not itself trivial; for blank input it returns
the empty clause list. -/
theorem C5_no_boundary_single_clause :
    ∀ t : PyStr,
      ((∀ l ∈ splitNL (normalizeCRLF t),
          is_clause_start l (detect_style (normalizeCRLF t)).1
            (detect_style (normalizeCRLF t)).2 = false) →
        is_trivial_clause (pyStrip (normalizeCRLF t)) = false →
        segment_clauses t = [pyStrip (normalizeCRLF t)]) ∧
      (pyStrip (normalizeCRLF t) = [] → segment_clauses t = []) := by
  intro t
  constructor
  · intro hb htriv
    have hseg := segAccum_no_boundary (detect_style (normalizeCRLF t)).1
        (detect_style (normalizeCRLF t)).2 (splitNL (normalizeCRLF t)) [] [] hb
    rw [List.nil_append, joinNL_splitNL] at hseg
    have hne : pyStrip (normalizeCRLF t) ≠ [] := by
      intro he
      have hnil : is_trivial_clause ([] : PyStr) = true := by decide
      rw [he, hnil] at htriv
      exact Bool.noConfusion htriv
    rw [segment_clauses]
    simp only [rawClauses]
    rw [hseg, if_neg (by simpa using hne)]
    simp [headerStrip, List.filter_cons, htriv]
  · intro hblank
    have hb : ∀ l ∈ splitNL (normalizeCRLF t),
        is_clause_start l (detect_style (normalizeCRLF t)).1
          (detect_style (normalizeCRLF t)).2 = false := by
      intro l hl
      apply is_clause_start_blank
      apply all_space_pyStrip
      intro c hc
      exact pyStrip_eq_nil_all _ hblank c (splitNL_mem_subset _ l hl c hc)
    have hseg := segAccum_no_boundary (detect_style (normalizeCRLF t)).1
        (detect_style (normalizeCRLF t)).2 (splitNL (normalizeCRLF t)) [] [] hb
    rw [List.nil_append, joinNL_splitNL] at hseg
    rw [segment_clauses]
    simp only [rawClauses]
    rw [hseg, if_pos (by simp [hblank])]
    rfl

theorem C5_witness :
    segment_clauses ("甲方應對乙方之機密資訊負有保密義務".data) =
      ["甲方應對乙方之機密資訊負有保密義務".data] ∧
    segment_clauses ("  \n \n".data) = [] :=
  ⟨(C5_no_boundary_single_clause ("甲方應對乙方之機密資訊負有保密義務".data)).1
      (by decide) (by decide),
   (C5_no_boundary_single_clause ("  \n \n".data)).2 (by decide)⟩

/-- C6: the header-stripping rule of `segment_clauses` drops the first
accumulated clause exactly when at least two clauses were accumulated and
the first contains neither an Article marker anywhere nor a line-start
CJK-enumeration marker anywhere; it never fires when a single clause was
accumulated, so a lone unmarked clause is never discarded by it.  The two
closed conjuncts exercise both directions end to end. -/
theorem C6_header_rule :
    (∀ t : PyStr, (rawClauses t).length ≤ 1 →
      segment_clauses t = (rawClauses t).filter (fun c => !is_trivial_clause c)) ∧
    (∀ (t : PyStr) (c0 : PyStr) (rest : List PyStr), rawClauses t = c0 :: rest →
      rest ≠ [] →
      (headerUnmarked c0 = true →
        segment_clauses t = rest.filter (fun c => !is_trivial_clause c)) ∧
      (headerUnmarked c0 = false →
        segment_clauses t = (c0 :: rest).filter (fun c => !is_trivial_clause c))) ∧
    segment_clauses
      ("服務合約總說明文件\n第一條 保密義務之內容說明\n第二條 違約責任之內容說明".data) =
      ["第一條 保密義務之內容說明".data, "第二條 違約責任之內容說明".data] ∧
    segment_clauses ("本合約雙方應誠信履行所有約定條款".data) =
      ["本合約雙方應誠信履行所有約定條款".data] := by
  refine ⟨?_, ?_, by decide, by decide⟩
  · intro t hlen
    rw [segment_clauses]
    cases e : rawClauses t with
    | nil => rfl
    | cons c0 rest =>
      cases rest with
      | nil => rfl
      | cons c1 r2 =>
        rw [e] at hlen
        simp at hlen
  · intro t c0 rest he hrest
    cases rest with
    | nil => exact absurd rfl hrest
    | cons c1 r2 =>
      constructor
      · intro hu
        rw [segment_clauses, he]
        simp [headerStrip, hu]
      · intro hu
        rw [segment_clauses, he]
        simp [headerStrip, hu]

theorem C6_header_rule_witness :
    segment_clauses
      ("合約前言說明事項如下所列\n一、甲方應負之義務內容\n二、乙方應負之義務內容".data) =
      ["一、甲方應負之義務內容".data, "二、乙方應負之義務內容".data] :=
  (C6_header_rule.2.1
      ("合約前言說明事項如下所列\n一、甲方應負之義務內容\n二、乙方應負之義務內容".data)
      ("合約前言說明事項如下所列".data)
      ["一、甲方應負之義務內容".data, "二、乙方應負之義務內容".data]
      (by decide) (by decide)).1 (by decide)

/-- C7: `is_trivial_clause` discards a clause exactly when, after trimming,
it is empty, exactly `---`, a single non-blank markdown-heading line, a
single non-blank fully-bold line, or has fewer than 4 CJK ideographs with
trimmed length under 20; and no clause surviving `segment_clauses` has
empty text. -/
theorem C7_trivial_filter :
    (∀ text : PyStr,
      is_trivial_clause text = true ↔
        (pyStrip text = [] ∨ pyStrip text = "---".data ∨
         (∃ first, nonblankLines (pyStrip text) = [first] ∧
            pyStartsWith first ("###".data) = true) ∨
         (∃ first, nonblankLines (pyStrip text) = [first] ∧
            pyStartsWith first ("**".data) = true ∧
            pyEndsWith first ("**".data) = true) ∨
         (hanCount (pyStrip text) < 4 ∧ (pyStrip text).length < 20))) ∧
    (∀ (t c : PyStr), c ∈ segment_clauses t → c ≠ []) := by
  constructor
  · intro text
    by_cases h0 : pyStrip text = []
    · simp [is_trivial_clause, h0]
    · have h0e : (pyStrip text).isEmpty = false := by
        cases hs : pyStrip text with
        | nil => exact absurd hs h0
        | cons c t' => rfl
      by_cases h1 : pyStrip text = "---".data
      · simp [is_trivial_clause, h0e, h1]
      · obtain ⟨c, t', e⟩ : ∃ c t', pyStrip text = c :: t' := by
          cases hs : pyStrip text with
          | nil => exact absurd hs h0
          | cons c t' => exact ⟨c, t', rfl⟩
        have hc : isPySpace c = false := pyStrip_head text c t' e
        have hnb : nonblankLines (pyStrip text) ≠ [] := by
          rw [e]
          exact nonblankLines_ne_nil c t' hc
        cases el : nonblankLines (pyStrip text) with
        | nil => exact absurd el hnb
        | cons first rest' =>
          simp only [is_trivial_clause, h0e, Bool.false_eq_true, if_false,
            if_neg h1, el]
          constructor
          · intro hl
            split_ifs at hl with hA hB hC
            · rw [Bool.and_eq_true, decide_eq_true_eq] at hA
              have hr : rest' = [] := by
                have := hA.2
                simpa using this
              exact Or.inr (Or.inr (Or.inl ⟨first, by rw [hr], hA.1⟩))
            · rw [Bool.and_eq_true, Bool.and_eq_true, decide_eq_true_eq] at hB
              have hr : rest' = [] := by
                have := hB.2
                simpa using this
              exact Or.inr (Or.inr (Or.inr (Or.inl
                ⟨first, by rw [hr], hB.1.1, hB.1.2⟩)))
            · rw [Bool.and_eq_true, decide_eq_true_eq, decide_eq_true_eq] at hC
              exact Or.inr (Or.inr (Or.inr (Or.inr hC)))
          · intro hr
            rcases hr with he' | he' | ⟨f, hf, hs⟩ | ⟨f, hf, hs1, hs2⟩ | ⟨hh, hlen⟩
            · exact absurd he' h0
            · exact absurd he' h1
            · have hfe : first = f ∧ rest' = [] := by
                constructor
                · exact (List.cons.injEq _ _ _ _ ▸ hf).1
                · exact (List.cons.injEq _ _ _ _ ▸ hf).2
              rw [hfe.1, hfe.2]
              simp [hs]
            · have hfe : first = f ∧ rest' = [] := by
                constructor
                · exact (List.cons.injEq _ _ _ _ ▸ hf).1
                · exact (List.cons.injEq _ _ _ _ ▸ hf).2
              rw [hfe.1, hfe.2]
              split_ifs with hA hB hC
              · rfl
              · rfl
              · rfl
              · simp [hs1, hs2] at hB
            · split_ifs with hA hB hC
              · rfl
              · rfl
              · rfl
              · simp [hh, hlen] at hC
  · intro t c hmem
    rw [segment_clauses] at hmem
    have hkeep := (List.mem_filter.mp hmem).2
    intro he
    rw [he] at hkeep
    have : is_trivial_clause ([] : PyStr) = true := by decide
    rw [this] at hkeep
    exact Bool.noConfusion hkeep

theorem C7_trivial_filter_witness :
    is_trivial_clause ("---".data) = true ∧
    ("第一條 保密義務之內容說明".data : PyStr) ≠ [] :=
  ⟨(C7_trivial_filter.1 ("---".data)).mpr (Or.inr (Or.inl (by decide))),
   C7_trivial_filter.2
     ("第一條 保密義務之內容說明\n第二條 違約責任之內容另述".data)
     ("第一條 保密義務之內容說明".data) (by decide)⟩

theorem pyGet_setdefault_same (d : PyDict) (k v : PyStr) :
    pyGet (pySetdefault d k v) k = some ((pyGet d k).getD v) := by
  rw [pySetdefault]
  cases h : pyGet d k with
  | some w => exact h
  | none =>
    have happ : ∀ d' : PyDict, pyGet d' k = none →
        pyGet (d' ++ [(k, v)]) k = some v := by
      intro d'
      induction d' with
      | nil => intro _; simp [pyGet]
      | cons kv t ih =>
        obtain ⟨k0, v0⟩ := kv
        intro hg
        rw [pyGet] at hg
        rw [List.cons_append, pyGet]
        split_ifs at hg ⊢ with hk
        exact ih hg
    simpa using happ d h

theorem pyGet_setdefault_other (d : PyDict) (k v k' : PyStr) (h : k ≠ k') :
    pyGet (pySetdefault d k v) k' = pyGet d k' := by
  rw [pySetdefault]
  cases hg : pyGet d k with
  | some w => rfl
  | none =>
    have happ : ∀ d' : PyDict, pyGet (d' ++ [(k, v)]) k' = pyGet d' k' := by
      intro d'
      induction d' with
      | nil => simp [pyGet, h]
      | cons kv t ih =>
        obtain ⟨k0, v0⟩ := kv
        rw [List.cons_append, pyGet, pyGet]
        split_ifs with hk
        · rfl
        · exact ih
    exact happ d

theorem foldl_setdefault_get (ks : List PyStr) (d : PyDict) (k : PyStr) :
    pyGet (ks.foldl (fun acc k' => pySetdefault acc k' []) d) k =
      if k ∈ ks ∧ pyGet d k = none then some [] else pyGet d k := by
  induction ks generalizing d with
  | nil => simp
  | cons k0 t ih =>
    rw [List.foldl_cons, ih]
    by_cases hk : k0 = k
    · subst hk
      cases h : pyGet d k0 with
      | some v =>
        rw [pyGet_setdefault_same, h]
        simp [h]
      | none =>
        rw [pyGet_setdefault_same, h]
        simp [h]
    · rw [pyGet_setdefault_other d k0 [] k hk]
      by_cases hmem : k ∈ t
      · simp [hmem, hk]
      · have : ¬ k ∈ k0 :: t := by
          intro hc
          rcases List.mem_cons.mp hc with rfl | hc
          · exact hk rfl
          · exact hmem hc
        simp [hmem, this]

theorem applyDefaults_missing (d : PyDict) (k : PyStr) (hk : k ∈ fiveFields)
    (h : pyGet d k = none) : pyGet (applyDefaults d) k = some [] := by
  rw [applyDefaults, foldl_setdefault_get, if_pos ⟨hk, h⟩]

/-- C3 counterexample: an exception raised by the collaborator call (for
example a network timeout) propagates out of `analyze_document`: with two
clauses and a raising collaborator the whole run yields an error and no
clause — in particular not the second — receives a result. -/
theorem C3_counterexample :
    analyze_document (fun _ => none) (fun _ => Except.error ⟨"連線逾時".data⟩)
      ["第一條 保密義務之內容".data, "第二條 違約責任之內容".data] =
      Except.error ⟨"連線逾時".data⟩ := rfl

/-- C3 (amended): a non-JSON response (`json.JSONDecodeError`) is a
per-clause error — the failing clause receives the Unknown-risk fallback
record and processing continues, and whenever every collaborator call
returns a response whose parse either fails or yields a JSON object, every
clause completes and is reported.  But two failure modes abort
`analyze_document` and the remaining clauses: a raised collaborator
exception (network/timeout/HTTP failure), and the `AttributeError` raised
by `parsed.setdefault` when the response is valid JSON that is not an
object (e.g. a list or a bare string), which the code does not catch. -/
theorem C3_per_clause_vs_transport :
    (∀ (jl : JsonParse) (gen : GenOracle) (cs : List PyStr),
      (∀ p, ∃ s, gen p = Except.ok s) →
      (∀ s, jl s = none ∨ ∃ d, jl s = some (JsonVal.obj d)) →
      ∃ rs, analyze_document jl gen cs = Except.ok rs ∧ rs.length = cs.length) ∧
    (∀ (jl : JsonParse) (gen : GenOracle) (c : PyStr) (cs : List PyStr)
        (content : PyStr),
      gen (user_prompt c) = Except.ok content → jl content = none →
      analyze_document jl gen (c :: cs) =
        (analyze_document jl gen cs).map
          (fun rs => resultOfAnalysis c (fallbackDict content) :: rs) ∧
      (resultOfAnalysis c (fallbackDict content)).risk_level = "未知".data) ∧
    (∀ (jl : JsonParse) (gen : GenOracle) (c : PyStr) (cs : List PyStr) (e : PyErr),
      gen (user_prompt c) = Except.error e →
      analyze_document jl gen (c :: cs) = Except.error e) ∧
    (∀ (jl : JsonParse) (gen : GenOracle) (c : PyStr) (cs : List PyStr)
        (content ty : PyStr),
      gen (user_prompt c) = Except.ok content →
      jl content = some (JsonVal.nonObj ty) →
      analyze_document jl gen (c :: cs) = Except.error (attributeError ty)) := by
  refine ⟨?_, ?_, ?_, ?_⟩
  · intro jl gen cs hok hobj
    induction cs with
    | nil => exact ⟨[], rfl, rfl⟩
    | cons c t ih =>
      obtain ⟨rs, hrs, hlen⟩ := ih
      obtain ⟨s, hs⟩ := hok (user_prompt c)
      rcases hobj s with hjl | ⟨d, hjl⟩
      · refine ⟨resultOfAnalysis c (fallbackDict s) :: rs, ?_, by simp [hlen]⟩
        simp only [analyze_document, analyze_clause, hs, hjl, hrs]
      · refine ⟨resultOfAnalysis c (applyDefaults d) :: rs, ?_, by simp [hlen]⟩
        simp only [analyze_document, analyze_clause, hs, hjl, hrs]
  · intro jl gen c cs content hok hjl
    refine ⟨?_, rfl⟩
    simp only [analyze_document, analyze_clause, hok, hjl]
    cases h : analyze_document jl gen cs with
    | error e => rfl
    | ok rs => rfl
  · intro jl gen c cs e hgen
    simp only [analyze_document, analyze_clause, hgen]
  · intro jl gen c cs content ty hok hjl
    simp only [analyze_document, analyze_clause, hok, hjl]

theorem C3_per_clause_vs_transport_witness :
    (∃ rs, analyze_document (fun _ => none)
        (fun _ => Except.ok ("這不是合法的JSON輸出".data))
        ["第一條 保密義務之內容".data, "第二條 違約責任之內容".data] =
        Except.ok rs ∧ rs.length = 2) ∧
    analyze_document (fun _ => none) (fun _ => Except.error ⟨"逾時".data⟩)
      ["第一條 保密義務之內容".data] = Except.error ⟨"逾時".data⟩ ∧
    analyze_document (fun _ => some (JsonVal.nonObj ("list".data)))
      (fun _ => Except.ok ("[]".data)) ["第一條 保密義務之內容".data] =
      Except.error (attributeError ("list".data)) :=
  ⟨C3_per_clause_vs_transport.1 (fun _ => none)
      (fun _ => Except.ok ("這不是合法的JSON輸出".data))
      ["第一條 保密義務之內容".data, "第二條 違約責任之內容".data]
      (fun _ => ⟨"這不是合法的JSON輸出".data, rfl⟩) (fun _ => Or.inl rfl),
   C3_per_clause_vs_transport.2.2.1 (fun _ => none)
      (fun _ => Except.error ⟨"逾時".data⟩)
      ("第一條 保密義務之內容".data) [] ⟨"逾時".data⟩ rfl,
   C3_per_clause_vs_transport.2.2.2 (fun _ => some (JsonVal.nonObj ("list".data)))
      (fun _ => Except.ok ("[]".data)) ("第一條 保密義務之內容".data) []
      ("[]".data) ("list".data) rfl rfl⟩

/-- C8: when the collaborator's raw output fails JSON parsing,
`analyze_clause` returns the fallback record with risk level Unknown
(`未知`), empty summary, type and suggestion, and a diagnostic
`risk_reason` carrying the first 200 characters of the raw output; when the
output parses as a JSON object but lacks some of the five fields, each
missing field defaults to the empty string and no error is raised. -/
theorem C8_missing_fields_and_fallback :
    (∀ (jl : JsonParse) (gen : GenOracle) (clause content : PyStr),
      gen (user_prompt clause) = Except.ok content → jl content = none →
      analyze_clause jl gen clause = Except.ok (fallbackDict content) ∧
      pyGetD (fallbackDict content) ("risk_level".data) [] = "未知".data ∧
      pyGetD (fallbackDict content) ("summary".data) [] = [] ∧
      pyGetD (fallbackDict content) ("risk_type".data) [] = [] ∧
      pyGetD (fallbackDict content) ("suggestion".data) [] = [] ∧
      pyGetD (fallbackDict content) ("risk_reason".data) [] =
        jsonErrIntro ++ content.take 200) ∧
    (∀ (jl : JsonParse) (gen : GenOracle) (clause content : PyStr) (parsed : PyDict),
      gen (user_prompt clause) = Except.ok content →
      jl content = some (JsonVal.obj parsed) →
      analyze_clause jl gen clause = Except.ok (applyDefaults parsed) ∧
      ∀ k ∈ fiveFields, pyGet parsed k = none →
        pyGet (applyDefaults parsed) k = some []) := by
  constructor
  · intro jl gen clause content hok hjl
    refine ⟨?_, rfl, rfl, rfl, rfl, rfl⟩
    simp only [analyze_clause, hok, hjl]
  · intro jl gen clause content parsed hok hjl
    refine ⟨?_, ?_⟩
    · simp only [analyze_clause, hok, hjl]
    · intro k hk h
      exact applyDefaults_missing parsed k hk h

theorem C8_missing_fields_and_fallback_witness :
    analyze_clause (fun _ => none) (fun _ => Except.ok ("亂碼輸出內容".data))
      ("第一條 測試條款之內容".data) =
      Except.ok (fallbackDict ("亂碼輸出內容".data)) ∧
    pyGet (applyDefaults [("summary".data, "摘要文字".data)]) ("risk_level".data) =
      some [] :=
  ⟨(C8_missing_fields_and_fallback.1 (fun _ => none)
      (fun _ => Except.ok ("亂碼輸出內容".data))
      ("第一條 測試條款之內容".data) ("亂碼輸出內容".data) rfl rfl).1,
   (C8_missing_fields_and_fallback.2
      (fun _ => some (JsonVal.obj [("summary".data, "摘要文字".data)]))
      (fun _ => Except.ok ("{}".data)) ("條款".data) ("{}".data)
      [("summary".data, "摘要文字".data)] rfl rfl).2
      ("risk_level".data) (by decide) (by decide)⟩
